import Mathlib

/-!
Verification development for the ChemEconAI profitability engine
(`src/utils/calculations.py` and `src/economics/profitability.py`).

The Python code is embedded shallowly over `ℚ`:
* Python floats become exact rationals (the claims under study are about
  the algebraic structure of the computations, not float rounding);
* every place where the Python code can raise (`ZeroDivisionError`,
  `IndexError`, explicit `raise ValueError`, bad keyword arguments) is
  modelled with `Except CalcErr`;
* `np.random` draws in the Monte-Carlo driver are abstracted by an
  oracle function supplied as an explicit argument.
-/

/-- Error kinds produced by the embedded code.  The Python code wraps
everything in `ValueError` with a message; only the arising of an error
matters for the claims, so a small tag type suffices. -/
inductive CalcErr where
  | valueError : CalcErr
  | zeroDivision : CalcErr
  | typeError : CalcErr
  deriving DecidableEq, Repr

deriving instance DecidableEq for Except

/-- Decide whether an `Except` computation succeeded. -/
def isOkE {α : Type} (e : Except CalcErr α) : Bool :=
  match e with
  | .ok _ => true
  | .error _ => false

/-- Convergence tolerance `1e-6` of `calculate_irr`. -/
def irrTol : ℚ := 1 / 1000000

/-- Running-index form of the NPV sum
`sum(cf / (1 + rate) ** i for i, cf in enumerate(cash_flows))` inlined in
`calculate_irr`.  Total on `ℚ`; `calculate_irr` only evaluates it at rates
`≥ -0.99`, where the division is the honest Python division. -/
def npvSumFrom (rate : ℚ) : List ℚ → ℕ → ℚ
  | [], _ => 0
  | cf :: rest, i => cf / (1 + rate) ^ i + npvSumFrom rate rest (i + 1)

/-- The NPV sum of a whole cash-flow list at a rate. -/
def npvSum (cash_flows : List ℚ) (rate : ℚ) : ℚ :=
  npvSumFrom rate cash_flows 0

/-- Running-index form of the derivative sum
`sum(-i * cf / (1 + rate) ** (i + 1) for i, cf in enumerate(cash_flows) if i > 0)`
from `calculate_irr`. -/
def dnpvSumFrom (rate : ℚ) : List ℚ → ℕ → ℚ
  | [], _ => 0
  | cf :: rest, i =>
    (if i = 0 then 0 else -(i : ℚ) * cf / (1 + rate) ^ (i + 1)) +
      dnpvSumFrom rate rest (i + 1)

/-- The derivative of the NPV sum of a whole cash-flow list at a rate. -/
def dnpvSum (cash_flows : List ℚ) (rate : ℚ) : ℚ :=
  dnpvSumFrom rate cash_flows 0

/-- Loop body of `calculate_npv`: iterate over the cash flows keeping the
running index `i`; Python raises `ZeroDivisionError` on
`cash_flow / ((1 + discount_rate) ** i)` exactly when `(1+r)^i = 0`
(`(1+r)^0` is `1` even at `r = -1`, matching Python `0.0 ** 0 == 1.0`). -/
def npvGo (r : ℚ) : List ℚ → ℕ → Except CalcErr ℚ
  | [], _ => .ok 0
  | cf :: rest, i =>
    if (1 + r) ^ i = 0 then .error .zeroDivision
    else
      match npvGo r rest (i + 1) with
      | .ok s => .ok (cf / (1 + r) ^ i + s)
      | .error e => .error e

/-- `calculate_npv(cash_flows, discount_rate)` from `src/utils/calculations.py`. -/
def calculate_npv (cash_flows : List ℚ) (discount_rate : ℚ) : Except CalcErr ℚ :=
  npvGo discount_rate cash_flows 0

/-- Which exit the Newton-Raphson loop of `calculate_irr` took. -/
inductive IrrStop where
  | converged : IrrStop
  | stalled : IrrStop
  | exhausted : IrrStop
  deriving DecidableEq, Repr

/-- The Newton-Raphson loop of `calculate_irr`, with fuel standing for the
remaining iterations of `for _ in range(max_iterations)`.  Returns the rate
together with the exit taken (converged `|npv| < tol`, stalled
`|dnpv| < tol`, or iterations exhausted).  The update is clamped to not
fall below `-0.99`. -/
def irrGo (cash_flows : List ℚ) (rate : ℚ) : ℕ → ℚ × IrrStop
  | 0 => (rate, .exhausted)
  | fuel + 1 =>
    let npv := npvSum cash_flows rate
    let dnpv := dnpvSum cash_flows rate
    if |npv| < irrTol then (rate, .converged)
    else if |dnpv| < irrTol then (rate, .stalled)
    else
      let next := rate - npv / dnpv
      let clamped := if next < -(99 / 100 : ℚ) then -(99 / 100 : ℚ) else next
      irrGo cash_flows clamped fuel

/-- `calculate_irr(cash_flows)` from `src/utils/calculations.py`: rejects
fewer than 2 cash flows, then runs Newton-Raphson from the initial guess
`0.1` for at most `1000` iterations. -/
def calculate_irr (cash_flows : List ℚ) : Except CalcErr ℚ :=
  if cash_flows.length < 2 then .error .valueError
  else .ok (irrGo cash_flows (1 / 10) 1000).1

/-- Loop of `calculate_payback_period`: accumulate flows; at the first year
whose cumulative reaches the investment, interpolate
`year + 1 - (cumulative - initial_investment) / cash_flow` (Python raises
`ZeroDivisionError` when that year's flow is `0`).  If the loop finishes
without crossing, extrapolate using the original list's last entry
(`IndexError` on an empty list, `ZeroDivisionError` on a zero last flow). -/
def paybackGo (inv : ℚ) (orig : List ℚ) : List ℚ → ℚ → ℕ → Except CalcErr ℚ
  | [], cum, _ =>
    match orig.getLast? with
    | none => .error .valueError
    | some lastFlow =>
      if lastFlow = 0 then .error .zeroDivision
      else .ok ((orig.length : ℚ) + (inv - cum) / lastFlow)
  | cf :: rest, cum, year =>
    let cum' := cum + cf
    if inv ≤ cum' then
      if cf = 0 then .error .zeroDivision
      else .ok ((year : ℚ) + 1 - (cum' - inv) / cf)
    else paybackGo inv orig rest cum' (year + 1)

/-- `calculate_payback_period(initial_investment, annual_cash_flows)` from
`src/utils/calculations.py`. -/
def calculate_payback_period (initial_investment : ℚ) (annual_cash_flows : List ℚ) :
    Except CalcErr ℚ :=
  paybackGo initial_investment annual_cash_flows annual_cash_flows 0 0

/-- `calculate_roi(profit, investment)` from `src/utils/calculations.py`:
rejects a zero investment, otherwise `(profit / investment) * 100`. -/
def calculate_roi (profit : ℚ) (investment : ℚ) : Except CalcErr ℚ :=
  if investment = 0 then .error .valueError
  else .ok (profit / investment * 100)

/-- The cash-flow series built inside `analyze_profitability`
(`src/economics/profitability.py`): entry 0 is `-capital_investment`; for
each year `1..project_lifetime` the flow is
`(taxable_income - max(0, taxable_income * tax_rate)) + annual_depreciation`
with `salvage_value` added in the final year.  Meaningful for
`project_lifetime ≥ 1` (the `ℚ`-division by `0` at lifetime `0` is guarded
in `analyze_profitability` itself). -/
def buildCashFlows (capital_investment annual_revenue annual_operating_costs : ℚ)
    (project_lifetime : ℕ) (tax_rate salvage_value : ℚ) : List ℚ :=
  let annual_depreciation := (capital_investment - salvage_value) / (project_lifetime : ℚ)
  (-capital_investment) ::
    (List.range project_lifetime).map (fun k =>
      let year := k + 1
      let gross_profit := annual_revenue - annual_operating_costs
      let taxable_income := gross_profit - annual_depreciation
      let taxes := max 0 (taxable_income * tax_rate)
      let annual_cash_flow := taxable_income - taxes + annual_depreciation
      if year = project_lifetime then annual_cash_flow + salvage_value
      else annual_cash_flow)

/-- The metrics dictionary assigned to `self.results` and returned by
`analyze_profitability`. -/
structure ResultDict where
  npv : ℚ
  irr : ℚ
  payback_period : ℚ
  roi : ℚ
  profitability_index : ℚ
  annual_cash_flow : ℚ
  total_revenue : ℚ
  total_costs : ℚ
  break_even_price : ℚ
  deriving DecidableEq, Repr

/-- `ProfitabilityAnalyzer.analyze_profitability` from
`src/economics/profitability.py`.  `project_lifetime = 0` raises
(`ZeroDivisionError` at the straight-line depreciation).  The metrics are
assembled exactly as in the source; note `'irr': irr * 100` and the
break-even guard `if annual_revenue > annual_operating_costs`
(whose inner division `annual_revenue / (annual_revenue - annual_operating_costs)`
can itself be zero, making `costs / inner` raise). -/
def analyze_profitability (capital_investment annual_revenue annual_operating_costs : ℚ)
    (project_lifetime : ℕ) (discount_rate : ℚ) (tax_rate : ℚ := 3 / 10)
    (salvage_value : ℚ := 0) : Except CalcErr ResultDict :=
  if project_lifetime = 0 then .error .zeroDivision
  else
    let cash_flows := buildCashFlows capital_investment annual_revenue
      annual_operating_costs project_lifetime tax_rate salvage_value
    match calculate_npv cash_flows discount_rate with
    | .error e => .error e
    | .ok npv =>
      match calculate_irr cash_flows with
      | .error e => .error e
      | .ok irr =>
        match calculate_payback_period capital_investment (cash_flows.drop 1) with
        | .error e => .error e
        | .ok payback_period =>
          match calculate_roi (annual_revenue - annual_operating_costs) capital_investment with
          | .error e => .error e
          | .ok roi =>
            let profitability_index := (npv + capital_investment) / capital_investment
            let breakEven : Except CalcErr ℚ :=
              if annual_operating_costs < annual_revenue then
                let inner := annual_revenue / (annual_revenue - annual_operating_costs)
                if inner = 0 then .error .zeroDivision
                else .ok (annual_operating_costs / inner)
              else .ok 0
            match breakEven with
            | .error e => .error e
            | .ok break_even_price =>
              .ok
                { npv := npv
                  irr := irr * 100
                  payback_period := payback_period
                  roi := roi
                  profitability_index := profitability_index
                  annual_cash_flow := cash_flows.getD 1 0
                  total_revenue := annual_revenue * (project_lifetime : ℚ)
                  total_costs := annual_operating_costs * (project_lifetime : ℚ)
                  break_even_price := break_even_price }

/-- Association-list view of a Python `Dict[str, float]` of named parameters
(Python dicts preserve insertion order and have unique keys); `lookupP` is
`d[k]` on the first matching key. -/
def lookupP : List (String × ℚ) → String → Option ℚ
  | [], _ => none
  | (k, v) :: rest, key => if k = key then some v else lookupP rest key

/-- `d[k] = v` on an existing key: replace the first matching entry, keep
its position (Python dict assignment to a present key). -/
def setP : List (String × ℚ) → String → ℚ → List (String × ℚ)
  | [], _, _ => []
  | (k, v) :: rest, key, nv =>
    if k = key then (k, nv) :: rest else (k, v) :: setP rest key nv

/-- A rational that stands for a Python `int` value: integral and
non-negative (`range(1, lifetime + 1)` needs an `int`; anything else makes
the guarded body of `analyze_profitability` raise). -/
def qToNat? (q : ℚ) : Option ℕ :=
  if q.den = 1 ∧ 0 ≤ q.num then some q.num.toNat else none

/-- The keyword-argument names accepted by `analyze_profitability`. -/
def analyzeKeys : List String :=
  ["capital_investment", "annual_revenue", "annual_operating_costs",
   "project_lifetime", "discount_rate", "tax_rate", "salvage_value"]

/-- `self.analyze_profitability(**params)` with a parameter dictionary:
an unknown key or a missing required key raises `TypeError` at the call
site; `tax_rate` and `salvage_value` default to `0.3` and `0`; a
non-integral `project_lifetime` makes the call raise. -/
def callAnalyze (ps : List (String × ℚ)) : Except CalcErr ResultDict :=
  if ¬ (ps.map Prod.fst).all (fun k => analyzeKeys.contains k) then .error .typeError
  else
    match lookupP ps "capital_investment", lookupP ps "annual_revenue",
        lookupP ps "annual_operating_costs", lookupP ps "project_lifetime",
        lookupP ps "discount_rate" with
    | some cap, some rev, some costs, some lifeq, some dr =>
      match qToNat? lifeq with
      | none => .error .typeError
      | some lifetime =>
        analyze_profitability cap rev costs lifetime dr
          ((lookupP ps "tax_rate").getD (3 / 10))
          ((lookupP ps "salvage_value").getD 0)
    | _, _, _, _, _ => .error .typeError

/-- A row appended by `sensitivity_analysis`. -/
structure SRow where
  parameter : String
  change_percent : ℚ
  npv : ℚ
  irr : ℚ
  payback_period : ℚ
  deriving DecidableEq, Repr

/-- One inner-loop iteration of `sensitivity_analysis`: perturb the chosen
parameter to `base_value * (1 + change_percent / 100)`, rerun the
aggregator on the modified copy, record the row. -/
def sensOne (base : List (String × ℚ)) (name : String) (bv c : ℚ) :
    Except CalcErr SRow :=
  match callAnalyze (setP base name (bv * (1 + c / 100))) with
  | .error e => .error e
  | .ok res => .ok ⟨name, c, res.npv, res.irr, res.payback_period⟩

/-- The inner `for change_percent in changes` loop of
`sensitivity_analysis`; a failing aggregator call propagates (there is no
`try` in `sensitivity_analysis`). -/
def sensRowsFor (base : List (String × ℚ)) (name : String) (bv : ℚ) :
    List ℚ → Except CalcErr (List SRow)
  | [] => .ok []
  | c :: cs =>
    match sensOne base name bv c with
    | .error e => .error e
    | .ok row =>
      match sensRowsFor base name bv cs with
      | .error e => .error e
      | .ok rows => .ok (row :: rows)

/-- `ProfitabilityAnalyzer.sensitivity_analysis(base_parameters,
sensitivity_ranges)` from `src/economics/profitability.py`: iterate the
ranges in order, silently skipping parameters not present in the base
dictionary, and collect the rows. -/
def sensitivity_analysis (base : List (String × ℚ)) :
    List (String × List ℚ) → Except CalcErr (List SRow)
  | [] => .ok []
  | (name, changes) :: rest =>
    match lookupP base name with
    | none => sensitivity_analysis base rest
    | some bv =>
      match sensRowsFor base name bv changes with
      | .error e => .error e
      | .ok rows =>
        match sensitivity_analysis base rest with
        | .error e => .error e
        | .ok restRows => .ok (rows ++ restRows)

/-- The (parameter, percent_change) pairs the specification promises one
row for: pairs of the ranges mapping, in order, whose parameter is present
in the base mapping. -/
def sensPairs (base : List (String × ℚ)) :
    List (String × List ℚ) → List (String × ℚ)
  | [] => []
  | (name, changes) :: rest =>
    match lookupP base name with
    | none => sensPairs base rest
    | some _ => changes.map (fun c => (name, c)) ++ sensPairs base rest

/-- A distribution specification entry of `monte_carlo_analysis`
(`{'type': ..., parameters...}`); `other` is the fallback branch that
just uses the declared mean. -/
inductive DistSpec where
  | normal (mean std : ℚ) : DistSpec
  | triangular (lo mode hi : ℚ) : DistSpec
  | uniform (lo hi : ℚ) : DistSpec
  | other (mean : ℚ) : DistSpec
  deriving DecidableEq, Repr

/-- The value drawn for one parameter in one simulation.  Draws from
`np.random` are abstracted by the `oracle` argument (simulation index and
parameter name determine the draw); the fallback branch deterministically
uses the declared mean, as in the source. -/
def sampleValue (oracle : ℕ → String → ℚ) (i : ℕ) (name : String) :
    DistSpec → ℚ
  | .other mean => mean
  | _ => oracle i name

/-- The `sim_params` dictionary built for simulation `i`: every sampled
value is clamped with `max(0, value)`. -/
def simParams (oracle : ℕ → String → ℚ) (params : List (String × DistSpec))
    (i : ℕ) : List (String × ℚ) :=
  params.map (fun p => (p.1, max 0 (sampleValue oracle i p.1 p.2)))

/-- A row appended by `monte_carlo_analysis`; `simulation` is
`len(results) + 1` at append time. -/
structure MRow where
  simulation : ℕ
  npv : ℚ
  irr : ℚ
  payback_period : ℚ
  roi : ℚ
  deriving DecidableEq, Repr

/-- The simulation loop of `monte_carlo_analysis`: `fuel` simulations left,
`i` the current simulation index, `acc` the rows so far; a failing
aggregator call is skipped (`except: continue`). -/
def mcGo (oracle : ℕ → String → ℚ) (params : List (String × DistSpec)) :
    ℕ → ℕ → List MRow → List MRow
  | 0, _, acc => acc
  | fuel + 1, i, acc =>
    match callAnalyze (simParams oracle params i) with
    | .ok r =>
      mcGo oracle params fuel (i + 1)
        (acc ++ [⟨acc.length + 1, r.npv, r.irr, r.payback_period, r.roi⟩])
    | .error _ => mcGo oracle params fuel (i + 1) acc

/-- `ProfitabilityAnalyzer.monte_carlo_analysis(parameters, n_simulations)`
from `src/economics/profitability.py`, with the random draws supplied by
`oracle`. -/
def monte_carlo_analysis (oracle : ℕ → String → ℚ)
    (params : List (String × DistSpec)) (n_simulations : ℕ) : List MRow :=
  mcGo oracle params n_simulations 0 []

/-- The mutable state of a `ProfitabilityAnalyzer` object: `__init__` sets
`self.results = {}` (modelled `none`); a successful `analyze_profitability`
call assigns the returned dictionary to `self.results`. -/
structure AnalyzerState where
  results : Option ResultDict
  deriving DecidableEq, Repr

/-- `analyze_profitability` as a state transformer on the analyzer object:
on success the returned bundle is also stored in `self.results`; on an
exception the stored state is left unchanged. -/
def analyzeS (s : AnalyzerState) (capital_investment annual_revenue
    annual_operating_costs : ℚ) (project_lifetime : ℕ)
    (discount_rate tax_rate salvage_value : ℚ) :
    Except CalcErr ResultDict × AnalyzerState :=
  match analyze_profitability capital_investment annual_revenue
      annual_operating_costs project_lifetime discount_rate tax_rate
      salvage_value with
  | .ok r => (.ok r, ⟨some r⟩)
  | .error e => (.error e, s)

/-- The metrics bundle of the base case `capital_investment = 100`,
`annual_revenue = 110`, zero costs, one year, 10% discount, zero tax and
salvage (cash flows `[-100, 110]`). -/
def resultBundleBase : ResultDict :=
  ⟨0, 10, 10 / 11, 110, 1, 110, 110, 0, 0⟩

/-- One unfolding step of the Newton-Raphson loop. -/
theorem irrGo_succ (cfs : List ℚ) (r : ℚ) (n : ℕ) : irrGo cfs r (n + 1) =
    (if |npvSum cfs r| < irrTol then (r, .converged)
     else if |dnpvSum cfs r| < irrTol then (r, .stalled)
     else irrGo cfs
       (if r - npvSum cfs r / dnpvSum cfs r < -(99 / 100 : ℚ) then -(99 / 100 : ℚ)
        else r - npvSum cfs r / dnpvSum cfs r) n) := rfl

/-- The base example's cash-flow series. -/
theorem buildCashFlows_base : buildCashFlows 100 110 0 1 0 0 = [-100, 110] := by
  norm_num [buildCashFlows, List.range_succ]

/-- NPV of the base series at the 10% discount rate. -/
theorem npv_base : calculate_npv [-100, 110] (1 / 10) = .ok 0 := by
  norm_num [calculate_npv, npvGo]

/-- The Newton-Raphson loop converges immediately on the base series. -/
theorem irrGo_base : irrGo [-100, 110] (1 / 10) 1000 = (1 / 10, .converged) := by
  rw [show (1000 : ℕ) = 999 + 1 from rfl, irrGo_succ]
  norm_num [npvSum, npvSumFrom, irrTol]

/-- IRR of the base series. -/
theorem irr_base : calculate_irr [-100, 110] = .ok (1 / 10) := by
  rw [calculate_irr, if_neg (by norm_num), irrGo_base]

/-- Payback of the base case. -/
theorem payback_base : calculate_payback_period 100 [110] = .ok (10 / 11) := by
  norm_num [calculate_payback_period, paybackGo]

/-- ROI of the base case. -/
theorem roi_base : calculate_roi 110 100 = .ok 110 := by
  norm_num [calculate_roi]

/-- The full aggregator output on the base case. -/
theorem analyze_base :
    analyze_profitability 100 110 0 1 (1 / 10) 0 0 = .ok resultBundleBase := by
  rw [analyze_profitability]
  simp only [buildCashFlows_base, one_ne_zero, if_neg, if_false]
  rw [show ([-100, 110] : List ℚ).drop 1 = [110] from rfl]
  rw [npv_base, irr_base, payback_base]
  norm_num [roi_base, resultBundleBase]

/-- C1 counterexample: on the base case the IRR solver returns the fraction
`1/10`, but the bundled `irr` field is `10` — a unit conversion was applied. -/
theorem c1_counterexample :
    analyze_profitability 100 110 0 1 (1 / 10) 0 0 = .ok resultBundleBase ∧
    calculate_irr (buildCashFlows 100 110 0 1 0 0) = .ok (1 / 10) ∧
    resultBundleBase.irr ≠ 1 / 10 := by
  refine ⟨analyze_base, ?_, by norm_num [resultBundleBase]⟩
  rw [buildCashFlows_base, irr_base]

/-- C1 (amended): the `irr` field of a successful `analyze_profitability`
call is `100` times the value returned by the IRR solver on the full
cash-flow series (the solver's fraction converted to a percentage). -/
theorem c1_irr_is_percent (cap rev costs : ℚ) (L : ℕ) (dr tax salv : ℚ)
    (r : ResultDict) (h : analyze_profitability cap rev costs L dr tax salv = .ok r) :
    ∃ x, calculate_irr (buildCashFlows cap rev costs L tax salv) = .ok x ∧
      r.irr = 100 * x := by
  rw [analyze_profitability] at h
  by_cases hL : L = 0
  · simp [hL] at h
  simp only [if_neg hL] at h
  cases hnpv : calculate_npv (buildCashFlows cap rev costs L tax salv) dr with
  | error e => rw [hnpv] at h; exact absurd h (by simp)
  | ok npv =>
  rw [hnpv] at h
  cases hirr : calculate_irr (buildCashFlows cap rev costs L tax salv) with
  | error e => rw [hirr] at h; exact absurd h (by simp)
  | ok irr =>
  rw [hirr] at h
  cases hpb : calculate_payback_period cap
      ((buildCashFlows cap rev costs L tax salv).drop 1) with
  | error e => rw [hpb] at h; exact absurd h (by simp)
  | ok pb =>
  rw [hpb] at h
  cases hroi : calculate_roi (rev - costs) cap with
  | error e => rw [hroi] at h; exact absurd h (by simp)
  | ok roi =>
  rw [hroi] at h
  cases hbe : (if costs < rev then
      (if rev / (rev - costs) = 0 then (.error .zeroDivision : Except CalcErr ℚ)
       else .ok (costs / (rev / (rev - costs)))) else .ok 0) with
  | error e => rw [hbe] at h; exact absurd h (by simp)
  | ok be =>
  rw [hbe] at h
  simp only [Except.ok.injEq] at h
  exact ⟨irr, rfl, by rw [← h]; exact (mul_comm irr 100)⟩

/-- C1 witness: the amended statement at the base case. -/
theorem c1_irr_is_percent_witness :
    ∃ x, calculate_irr (buildCashFlows 100 110 0 1 0 0) = .ok x ∧
      resultBundleBase.irr = 100 * x :=
  c1_irr_is_percent 100 110 0 1 (1 / 10) 0 0 resultBundleBase analyze_base

/-- C2: for `project_lifetime ≥ 1` the internally built series has length
`project_lifetime + 1`, entry 0 is `-capital_investment`, each operating
year carries `(taxable_income - max(0, taxable_income*tax_rate)) +
annual_depreciation`, and the final year additionally carries the salvage
value. -/
theorem c2_cash_flow_series (cap rev costs tax salv : ℚ) (L : ℕ) (hL : 1 ≤ L) :
    (buildCashFlows cap rev costs L tax salv).length = L + 1 ∧
    (buildCashFlows cap rev costs L tax salv).getD 0 0 = -cap ∧
    (∀ y, 1 ≤ y → y ≤ L →
      (buildCashFlows cap rev costs L tax salv).getD y 0 =
        ((rev - costs) - (cap - salv) / (L : ℚ)) -
          max 0 ((((rev - costs) - (cap - salv) / (L : ℚ))) * tax) +
          (cap - salv) / (L : ℚ) +
          (if y = L then salv else 0)) := by
  refine ⟨by simp [buildCashFlows], rfl, ?_⟩
  intro y h1 h2
  obtain ⟨z, rfl⟩ : ∃ z, y = z + 1 := ⟨y - 1, by omega⟩
  have hz : z < L := by omega
  rw [buildCashFlows]
  simp only [List.getD_cons_succ]
  rw [List.getD_eq_getElem?_getD, List.getElem?_map, List.getElem?_range hz]
  by_cases hyL : z + 1 = L <;> simp [hyL]

/-- C2 witness: the series shape at the base case. -/
theorem c2_cash_flow_series_witness :
    (buildCashFlows 100 110 0 1 0 0).length = 1 + 1 ∧
    (buildCashFlows 100 110 0 1 0 0).getD 0 0 = -100 :=
  ⟨(c2_cash_flow_series 100 110 0 0 0 1 (by norm_num)).1,
   (c2_cash_flow_series 100 110 0 0 0 1 (by norm_num)).2.1⟩

/-- The payback loop on the suffix `rest`, having consumed a prefix with
cumulative `cum` and `year` entries: if the `k`-th remaining entry is the
first whose running cumulative reaches the investment and its flow is
nonzero, the loop returns the interpolated crossing. -/
theorem paybackGo_crossing (inv : ℚ) (orig : List ℚ) :
    ∀ (rest : List ℚ) (cum : ℚ) (year : ℕ) (k : ℕ), 1 ≤ k → k ≤ rest.length →
    inv ≤ cum + (rest.take k).sum →
    (∀ j, 1 ≤ j → j < k → cum + (rest.take j).sum < inv) →
    rest.getD (k - 1) 0 ≠ 0 →
    paybackGo inv orig rest cum year =
      .ok (((year : ℚ) + k) - ((cum + (rest.take k).sum) - inv) / rest.getD (k - 1) 0) := by
  intro rest
  induction rest with
  | nil => intro cum year k hk1 hk2 _ _ _; simp at hk2; omega
  | cons cf rest ih =>
    intro cum year k hk1 hk2 hcross hfirst hfk
    match k, hk1 with
    | 1, _ =>
      simp only [Nat.sub_self, List.take_succ_cons, List.take_zero, List.sum_cons,
        List.sum_nil, add_zero, List.getD_cons_zero] at hcross hfk ⊢
      rw [paybackGo, if_pos (by linarith), if_neg hfk]
      norm_num
    | (k' + 2), _ =>
      have h1 : cum + cf < inv := by
        have := hfirst 1 (by omega) (by omega)
        simpa using this
      rw [paybackGo, if_neg (by linarith)]
      simp only [show k' + 2 - 1 = k' + 1 from rfl, List.getD_cons_succ,
        List.take_succ_cons, List.sum_cons] at hfk ⊢
      have hrec := ih (cum + cf) (year + 1) (k' + 1) (by omega)
        (by simpa using hk2)
        (by simpa [add_assoc] using hcross)
        (by
          intro j hj1 hj2
          have := hfirst (j + 1) (by omega) (by omega)
          simpa [add_assoc] using this)
        (by simpa using hfk)
      simp only [Nat.add_sub_cancel] at hrec
      rw [hrec]
      congr 1
      push_cast
      ring

/-- C4: when the running cumulative of the annual flows first reaches the
investment at 1-based year `k` (with a nonzero flow that year),
`calculate_payback_period` returns
`k - (cumulative_k - initial_investment) / f_k`. -/
theorem c4_payback_interpolation (inv : ℚ) (flows : List ℚ) (k : ℕ)
    (hk1 : 1 ≤ k) (hk2 : k ≤ flows.length)
    (hcross : inv ≤ (flows.take k).sum)
    (hfirst : ∀ j, 1 ≤ j → j < k → (flows.take j).sum < inv)
    (hfk : flows.getD (k - 1) 0 ≠ 0) :
    calculate_payback_period inv flows =
      .ok ((k : ℚ) - ((flows.take k).sum - inv) / flows.getD (k - 1) 0) := by
  have h := paybackGo_crossing inv flows flows 0 0 k hk1 hk2 (by simpa using hcross)
    (by intro j hj1 hj2; simpa using hfirst j hj1 hj2) hfk
  rw [calculate_payback_period, h]
  norm_num

/-- C4 witness: investment 100 with flows `[40, 80]` pays back at 1.75
years and with `[50, 50, 50]` at exactly 2 years (both crossing at k = 2). -/
theorem c4_payback_interpolation_witness :
    calculate_payback_period 100 [40, 80] = .ok (7 / 4) ∧
    calculate_payback_period 100 [50, 50, 50] = .ok 2 := by
  constructor
  · have h := c4_payback_interpolation 100 [40, 80] 2 (by norm_num) (by norm_num)
      (by norm_num) (by intro j h1 h2; interval_cases j; norm_num) (by norm_num)
    rw [h]
    norm_num
  · have h := c4_payback_interpolation 100 [50, 50, 50] 2 (by norm_num) (by norm_num)
      (by norm_num) (by intro j h1 h2; interval_cases j; norm_num) (by norm_num)
    rw [h]
    norm_num

/-- When the discount rate is not `-1`, the NPV loop never divides by zero
and returns the running-index sum. -/
theorem npvGo_ok (r : ℚ) (hr : r ≠ -1) :
    ∀ (cfs : List ℚ) (i : ℕ), npvGo r cfs i = .ok (npvSumFrom r cfs i) := by
  have h1r : 1 + r ≠ 0 := by
    intro h
    exact hr (by linarith [h])
  intro cfs
  induction cfs with
  | nil => intro i; rfl
  | cons cf rest ih =>
    intro i
    rw [npvGo, if_neg (pow_ne_zero i h1r), ih (i + 1)]
    rfl

/-- The NPV loop raises exactly when the rate is `-1` and some term with
index `≥ 1` exists: started at index `0`, that means at least two entries. -/
theorem npvGo_error_iff (r : ℚ) (cfs : List ℚ) :
    (∃ e, npvGo r cfs 0 = .error e) ↔ (r = -1 ∧ 2 ≤ cfs.length) := by
  constructor
  · rintro ⟨e, he⟩
    by_cases hr : r = -1
    · refine ⟨hr, ?_⟩
      subst hr
      match cfs with
      | [] => simp [npvGo] at he
      | [cf] => simp [npvGo] at he
      | cf :: cf' :: rest => simp
    · rw [npvGo_ok r hr] at he
      exact absurd he (by simp)
  · rintro ⟨hr, hlen⟩
    subst hr
    match cfs with
    | cf :: cf' :: rest =>
      refine ⟨.zeroDivision, ?_⟩
      rw [npvGo, if_neg (by norm_num), npvGo]
      norm_num

/-- The running-index NPV sum as a `Finset.range` sum. -/
theorem npvSumFrom_eq_sum (r : ℚ) :
    ∀ (cfs : List ℚ) (i : ℕ),
      npvSumFrom r cfs i =
        ∑ j ∈ Finset.range cfs.length, cfs.getD j 0 / (1 + r) ^ (i + j) := by
  intro cfs
  induction cfs with
  | nil => intro i; simp [npvSumFrom]
  | cons cf rest ih =>
    intro i
    rw [npvSumFrom, ih (i + 1)]
    rw [List.length_cons, Finset.sum_range_succ']
    simp only [List.getD_cons_succ, List.getD_cons_zero, add_zero]
    rw [add_comm]
    congr 1
    apply Finset.sum_congr rfl
    intro j _
    have hx : i + 1 + j = i + (j + 1) := by omega
    rw [hx]

/-- C6 counterexample: at discount rate `-2 ≤ -1` with two cash flows,
`calculate_npv` does not fail — it returns the (sign-flipped) sum `0`. -/
theorem c6_counterexample :
    (-2 : ℚ) ≤ -1 ∧ calculate_npv [1, 1] (-2) = .ok 0 := by
  refine ⟨by norm_num, ?_⟩
  norm_num [calculate_npv, npvGo]

/-- C6 (amended): `calculate_npv` fails exactly when the discount rate is
`-1` and the list has at least two entries (the year-1 denominator is
zero); in every other case, any rate `< -1` included, it returns
`Σ cash_flows[i] / (1+discount_rate)^i`. -/
theorem c6_npv_characterization (cfs : List ℚ) (r : ℚ) :
    ((∃ e, calculate_npv cfs r = .error e) ↔ (r = -1 ∧ 2 ≤ cfs.length)) ∧
    (¬(r = -1 ∧ 2 ≤ cfs.length) →
      calculate_npv cfs r =
        .ok (∑ i ∈ Finset.range cfs.length, cfs.getD i 0 / (1 + r) ^ i)) := by
  refine ⟨npvGo_error_iff r cfs, ?_⟩
  intro hnot
  by_cases hr : r = -1
  · subst hr
    match cfs with
    | [] => simp [calculate_npv, npvGo]
    | [cf] => norm_num [calculate_npv, npvGo]
    | cf :: cf' :: rest => exact absurd ⟨rfl, by simp⟩ hnot
  · rw [calculate_npv, npvGo_ok r hr, npvSumFrom_eq_sum]
    simp

/-- C6 witness: the amended characterization at rate `1` on `[3, 2]`. -/
theorem c6_npv_characterization_witness :
    ¬((1 : ℚ) = -1 ∧ 2 ≤ ([3, 2] : List ℚ).length) ∧
    calculate_npv [3, 2] 1 =
      .ok (∑ i ∈ Finset.range ([3, 2] : List ℚ).length,
        ([3, 2] : List ℚ).getD i 0 / (1 + 1) ^ i) :=
  ⟨by norm_num, (c6_npv_characterization [3, 2] 1).2 (by norm_num)⟩

/-- The Newton-Raphson loop never lets the rate drop below `-0.99`. -/
theorem irrGo_ge (cfs : List ℚ) :
    ∀ (fuel : ℕ) (r : ℚ), -(99 / 100 : ℚ) ≤ r →
      -(99 / 100 : ℚ) ≤ (irrGo cfs r fuel).1 := by
  intro fuel
  induction fuel with
  | zero => intro r hr; exact hr
  | succ n ih =>
    intro r hr
    rw [irrGo_succ]
    split_ifs with h1 h2 h3
    · exact hr
    · exact hr
    · exact ih _ (le_refl _)
    · exact ih _ (le_of_not_lt h3)

/-- C9: any value returned by `calculate_irr` is at least `-0.99`: the
initial guess is `0.1` and every Newton step is clamped. -/
theorem c9_irr_clamped (cfs : List ℚ) (v : ℚ)
    (h : calculate_irr cfs = .ok v) : -(99 / 100 : ℚ) ≤ v := by
  rw [calculate_irr] at h
  by_cases hl : cfs.length < 2
  · rw [if_pos hl] at h
    exact absurd h (by simp)
  · rw [if_neg hl] at h
    simp only [Except.ok.injEq] at h
    rw [← h]
    exact irrGo_ge cfs 1000 (1 / 10) (by norm_num)

/-- C9 witness: the clamp bound at the base series, whose IRR is `1/10`. -/
theorem c9_irr_clamped_witness :
    calculate_irr [-100, 110] = .ok (1 / 10) ∧ -(99 / 100 : ℚ) ≤ 1 / 10 :=
  ⟨irr_base, c9_irr_clamped [-100, 110] (1 / 10) irr_base⟩

/-- A convergence exit of the Newton-Raphson loop happens exactly when the
NPV at the returned rate is inside the tolerance. -/
theorem irrGo_converged_npv (cfs : List ℚ) :
    ∀ (fuel : ℕ) (r₀ r : ℚ), irrGo cfs r₀ fuel = (r, .converged) →
      |npvSum cfs r| < irrTol := by
  intro fuel
  induction fuel with
  | zero =>
    intro r₀ r h
    rw [irrGo] at h
    exact absurd (congrArg Prod.snd h) (by simp)
  | succ n ih =>
    intro r₀ r h
    rw [irrGo_succ] at h
    split_ifs at h with h1 h2 h3
    · obtain ⟨hfst, -⟩ := Prod.mk.inj h
      rw [← hfst]
      exact h1
    · exact absurd (congrArg Prod.snd h) (by simp)
    · exact ih _ r h
    · exact ih _ r h

/-- C3: whenever the IRR solver exits through its convergence branch, the
NPV evaluator at the returned rate succeeds and yields a value inside the
tolerance. -/
theorem c3_irr_npv_roundtrip (cfs : List ℚ) (r : ℚ) (hlen : 2 ≤ cfs.length)
    (hconv : irrGo cfs (1 / 10) 1000 = (r, .converged)) :
    ∃ v, calculate_npv cfs r = .ok v ∧ |v| < irrTol := by
  have hge : -(99 / 100 : ℚ) ≤ r := by
    have h := irrGo_ge cfs 1000 (1 / 10) (by norm_num)
    rw [hconv] at h
    exact h
  have hr : r ≠ -1 := by
    intro h
    rw [h] at hge
    norm_num at hge
  refine ⟨npvSum cfs r, ?_, irrGo_converged_npv cfs 1000 (1 / 10) r hconv⟩
  rw [calculate_npv, npvGo_ok r hr]
  rfl

/-- C3 witness: the round trip at the base series, converging to `1/10`. -/
theorem c3_irr_npv_roundtrip_witness :
    2 ≤ ([-100, 110] : List ℚ).length ∧
    ∃ v, calculate_npv [-100, 110] (1 / 10) = .ok v ∧ |v| < irrTol :=
  ⟨by norm_num, c3_irr_npv_roundtrip [-100, 110] (1 / 10) (by norm_num) irrGo_base⟩

/-- C5 counterexample: a strictly negative capital investment is not
rejected — `analyze_profitability(-100, 5e-7, 0, 1, 0.1, 0, 0)` returns a
metrics bundle. -/
theorem c5_counterexample :
    isOkE (analyze_profitability (-100) (1 / 2000000) 0 1 (1 / 10) 0 0) = true := by
  have hcf : buildCashFlows (-100) (1 / 2000000) 0 1 0 0 = [100, 1 / 2000000] := by
    norm_num [buildCashFlows, List.range_succ]
  have hnpv : calculate_npv [100, 1 / 2000000] (1 / 10) = .ok (220000001 / 2200000) := by
    norm_num [calculate_npv, npvGo]
  have hnpvS : npvSum [100, 1 / 2000000] (1 / 10) = 220000001 / 2200000 := by
    norm_num [npvSum, npvSumFrom]
  have hdnpvS : dnpvSum [100, 1 / 2000000] (1 / 10) = -(1 / 2420000) := by
    norm_num [dnpvSum, dnpvSumFrom]
  have hirr : calculate_irr [100, 1 / 2000000] = .ok (1 / 10) := by
    rw [calculate_irr, if_neg (by norm_num), show (1000 : ℕ) = 999 + 1 from rfl,
      irrGo_succ, hnpvS, hdnpvS,
      if_neg (by rw [abs_of_pos (by norm_num : (0 : ℚ) < 220000001 / 2200000)]; norm_num [irrTol]),
      if_pos (by rw [abs_neg, abs_of_pos (by norm_num : (0 : ℚ) < 1 / 2420000)]; norm_num [irrTol])]
  have hpb : calculate_payback_period (-100) [1 / 2000000] = .ok (-200000000) := by
    norm_num [calculate_payback_period, paybackGo]
  rw [analyze_profitability]
  simp only [one_ne_zero, if_neg, if_false, hcf]
  rw [show ([100, 1 / 2000000] : List ℚ).drop 1 = [1 / 2000000] from rfl]
  rw [hnpv, hirr, hpb]
  norm_num [calculate_roi, isOkE]

/-- C5 (amended): a zero capital investment always makes
`analyze_profitability` fail (at latest at the ROI zero-investment check);
a strictly negative one is not rejected. -/
theorem c5_zero_capital_rejected (rev costs : ℚ) (L : ℕ) (dr tax salv : ℚ) :
    isOkE (analyze_profitability 0 rev costs L dr tax salv) = false := by
  rw [analyze_profitability]
  by_cases hL : L = 0
  · rw [if_pos hL]
    rfl
  simp only [if_neg hL]
  cases calculate_npv (buildCashFlows 0 rev costs L tax salv) dr with
  | error e => rfl
  | ok npv =>
  cases calculate_irr (buildCashFlows 0 rev costs L tax salv) with
  | error e => rfl
  | ok irr =>
  cases calculate_payback_period 0 ((buildCashFlows 0 rev costs L tax salv).drop 1) with
  | error e => rfl
  | ok pb =>
  rw [show calculate_roi (rev - costs) 0 = .error .valueError from by
    rw [calculate_roi, if_pos rfl]]
  rfl

/-- C5 amended-part witness: the zero-capital rejection at concrete
parameters. -/
theorem c5_zero_capital_rejected_witness :
    isOkE (analyze_profitability 0 110 0 1 (1 / 10) 0 0) = false :=
  c5_zero_capital_rejected 110 0 1 (1 / 10) 0 0

/-- C10 counterexample: after a successful `analyze_profitability` call the
analyzer object is no longer in its fresh state — the returned bundle is
retained in `self.results` across calls. -/
theorem c10_counterexample :
    (analyzeS ⟨none⟩ 100 110 0 1 (1 / 10) 0 0).2 ≠ (⟨none⟩ : AnalyzerState) := by
  rw [analyzeS, analyze_base]
  simp

/-- C10 (amended): the value returned by `analyze_profitability` does not
depend on the state stored in `self.results` — it equals the pure function
of the call's arguments — even though a successful call does retain its
result on the analyzer. -/
theorem c10_output_state_independent (s s' : AnalyzerState)
    (cap rev costs : ℚ) (L : ℕ) (dr tax salv : ℚ) :
    (analyzeS s cap rev costs L dr tax salv).1 =
      (analyzeS s' cap rev costs L dr tax salv).1 ∧
    (analyzeS s cap rev costs L dr tax salv).1 =
      analyze_profitability cap rev costs L dr tax salv := by
  rw [analyzeS, analyzeS]
  cases analyze_profitability cap rev costs L dr tax salv with
  | ok r => exact ⟨rfl, rfl⟩
  | error e => exact ⟨rfl, rfl⟩

/-- The Monte-Carlo loop appends one row per successful aggregator call:
its final length is the accumulator's length plus the number of successful
simulations among the remaining fuel. -/
theorem mcGo_length (oracle : ℕ → String → ℚ) (params : List (String × DistSpec)) :
    ∀ (fuel i : ℕ) (acc : List MRow),
      (mcGo oracle params fuel i acc).length =
        acc.length + (List.range fuel).countP
          (fun k => isOkE (callAnalyze (simParams oracle params (i + k)))) := by
  intro fuel
  induction fuel with
  | zero => intro i acc; simp [mcGo]
  | succ n ih =>
    intro i acc
    have hshift : (fun k => isOkE (callAnalyze (simParams oracle params (i + (k + 1))))) =
        (fun k => isOkE (callAnalyze (simParams oracle params ((i + 1) + k)))) := by
      funext k
      rw [show i + (k + 1) = (i + 1) + k from by omega]
    rw [mcGo, List.range_succ_eq_map]
    cases hc : callAnalyze (simParams oracle params i) with
    | ok r =>
      rw [ih (i + 1), List.countP_cons, List.countP_map]
      simp only [Function.comp_def, Nat.succ_eq_add_one]
      rw [hshift]
      simp [hc, isOkE]
      omega
    | error e =>
      rw [ih (i + 1), List.countP_cons, List.countP_map]
      simp only [Function.comp_def, Nat.succ_eq_add_one]
      rw [hshift]
      simp [hc, isOkE]
/-- C8: every sampled parameter value is clamped to `≥ 0`; the number of
result rows is exactly the number of simulations whose aggregator call
succeeds, hence at most `n_simulations`, with equality when none fails. -/
theorem c8_monte_carlo (oracle : ℕ → String → ℚ)
    (params : List (String × DistSpec)) (n : ℕ) :
    (∀ i pr, pr ∈ simParams oracle params i → 0 ≤ pr.2) ∧
    (monte_carlo_analysis oracle params n).length =
      (List.range n).countP (fun i => isOkE (callAnalyze (simParams oracle params i))) ∧
    (monte_carlo_analysis oracle params n).length ≤ n ∧
    ((∀ i, i < n → isOkE (callAnalyze (simParams oracle params i)) = true) →
      (monte_carlo_analysis oracle params n).length = n) := by
  have hlen : (monte_carlo_analysis oracle params n).length =
      (List.range n).countP (fun i => isOkE (callAnalyze (simParams oracle params i))) := by
    rw [monte_carlo_analysis, mcGo_length]
    simp
  refine ⟨?_, hlen, ?_, ?_⟩
  · intro i pr hpr
    obtain ⟨p, -, rfl⟩ := List.mem_map.1 hpr
    exact le_max_left 0 _
  · rw [hlen]
    calc (List.range n).countP (fun i => isOkE (callAnalyze (simParams oracle params i)))
        ≤ (List.range n).length := List.countP_le_length _
      _ = n := by simp
  · intro hall
    rw [hlen]
    rw [List.countP_eq_length.2 (by intro a ha; exact hall a (List.mem_range.1 ha))]
    simp

/-- Reassigning a key of a parameter dictionary to the value it already
holds leaves the dictionary unchanged. -/
theorem setP_self : ∀ (ps : List (String × ℚ)) (name : String) (bv : ℚ),
    lookupP ps name = some bv → setP ps name bv = ps := by
  intro ps
  induction ps with
  | nil => intro name bv h; simp [lookupP] at h
  | cons p rest ih =>
    intro name bv h
    obtain ⟨k, v⟩ := p
    rw [lookupP] at h
    rw [setP]
    by_cases hk : k = name
    · rw [if_pos hk] at h ⊢
      obtain rfl : v = bv := by simpa using h
      rfl
    · rw [if_neg hk] at h ⊢
      rw [ih name bv h]

/-- What the specification promises of one sensitivity row relative to its
(parameter, percent_change) pair: the row is labelled by the pair and its
metrics come from rerunning the aggregator with only that parameter
perturbed by the given percentage. -/
def sensRowSpec (base : List (String × ℚ)) (r : SRow) (p : String × ℚ) : Prop :=
  r.parameter = p.1 ∧ r.change_percent = p.2 ∧
    ∃ bv res, lookupP base p.1 = some bv ∧
      callAnalyze (setP base p.1 (bv * (1 + p.2 / 100))) = .ok res ∧
      r.npv = res.npv ∧ r.irr = res.irr ∧ r.payback_period = res.payback_period

/-- The inner sensitivity loop produces exactly one row per percent change,
in order, each matching `sensRowSpec`. -/
theorem sensRowsFor_forall (base : List (String × ℚ)) (name : String) (bv : ℚ)
    (hl : lookupP base name = some bv) :
    ∀ (cs : List ℚ) (rows : List SRow),
      sensRowsFor base name bv cs = .ok rows →
      List.Forall₂ (sensRowSpec base) rows (cs.map (fun c => (name, c))) := by
  intro cs
  induction cs with
  | nil =>
    intro rows h
    obtain rfl : ([] : List SRow) = rows := by simpa [sensRowsFor] using h
    exact List.Forall₂.nil
  | cons c cs ih =>
    intro rows h
    rw [sensRowsFor] at h
    cases hone : sensOne base name bv c with
    | error e => rw [hone] at h; exact absurd h (by simp)
    | ok row =>
    rw [hone] at h
    cases hrec : sensRowsFor base name bv cs with
    | error e => rw [hrec] at h; exact absurd h (by simp)
    | ok rows' =>
    rw [hrec] at h
    obtain rfl : row :: rows' = rows := by simpa using h
    refine List.Forall₂.cons ?_ (ih rows' hrec)
    rw [sensOne] at hone
    cases hca : callAnalyze (setP base name (bv * (1 + c / 100))) with
    | error e => rw [hca] at hone; exact absurd hone (by simp)
    | ok res =>
    rw [hca] at hone
    obtain rfl : (⟨name, c, res.npv, res.irr, res.payback_period⟩ : SRow) = row := by
      simpa using hone
    exact ⟨rfl, rfl, bv, res, hl, hca, rfl, rfl, rfl⟩

/-- A zero-percent row of the inner loop carries the unperturbed base-case
NPV. -/
theorem sensRowsFor_zero (base : List (String × ℚ)) (name : String) (bv : ℚ)
    (rbase : ResultDict) (hl : lookupP base name = some bv)
    (hbase : callAnalyze base = .ok rbase) :
    ∀ (cs : List ℚ) (rows : List SRow),
      sensRowsFor base name bv cs = .ok rows →
      ∀ r ∈ rows, r.change_percent = 0 → r.npv = rbase.npv := by
  intro cs
  induction cs with
  | nil =>
    intro rows h
    obtain rfl : ([] : List SRow) = rows := by simpa [sensRowsFor] using h
    intro r hr
    simp at hr
  | cons c cs ih =>
    intro rows h
    rw [sensRowsFor] at h
    cases hone : sensOne base name bv c with
    | error e => rw [hone] at h; exact absurd h (by simp)
    | ok row =>
    rw [hone] at h
    cases hrec : sensRowsFor base name bv cs with
    | error e => rw [hrec] at h; exact absurd h (by simp)
    | ok rows' =>
    rw [hrec] at h
    obtain rfl : row :: rows' = rows := by simpa using h
    intro r hr hzero
    rcases List.mem_cons.1 hr with rfl | hr'
    · rw [sensOne] at hone
      cases hca : callAnalyze (setP base name (bv * (1 + c / 100))) with
      | error e => rw [hca] at hone; exact absurd hone (by simp)
      | ok res =>
      rw [hca] at hone
      obtain rfl : (⟨name, c, res.npv, res.irr, res.payback_period⟩ : SRow) = r := by
        simpa using hone
      obtain rfl : c = 0 := hzero
      rw [show bv * (1 + 0 / 100) = bv by norm_num, setP_self base name bv hl, hbase]
        at hca
      obtain rfl : rbase = res := by simpa using hca
      rfl
    · exact ih rows' hrec r hr' hzero

/-- Two related lists concatenated entrywise stay related. -/
theorem forall₂_append {α β : Type} {R : α → β → Prop} :
    ∀ {l₁ : List α} {l₂ : List β} {u₁ : List α} {u₂ : List β},
      List.Forall₂ R l₁ l₂ → List.Forall₂ R u₁ u₂ →
      List.Forall₂ R (l₁ ++ u₁) (l₂ ++ u₂) := by
  intro l₁
  induction l₁ with
  | nil =>
    intro l₂ u₁ u₂ h hu
    cases h
    exact hu
  | cons a l ih =>
    intro l₂ u₁ u₂ h hu
    cases h with
    | cons hab hl => exact List.Forall₂.cons hab (ih hl hu)

/-- C7: a successful `sensitivity_analysis` run produces exactly one row
per (parameter, percent_change) pair whose parameter is present in the
base mapping, in the given order, each row obtained by perturbing only
that parameter with the others held at base (parameters absent from the
base are skipped); every zero-percent row carries the unperturbed
base-case NPV. -/
theorem c7_sensitivity_rows (base : List (String × ℚ))
    (ranges : List (String × List ℚ)) (rows : List SRow) (rbase : ResultDict)
    (hok : sensitivity_analysis base ranges = .ok rows)
    (hbase : callAnalyze base = .ok rbase) :
    List.Forall₂ (sensRowSpec base) rows (sensPairs base ranges) ∧
    (∀ r ∈ rows, r.change_percent = 0 → r.npv = rbase.npv) := by
  induction ranges generalizing rows with
  | nil =>
    obtain rfl : ([] : List SRow) = rows := by simpa [sensitivity_analysis] using hok
    exact ⟨List.Forall₂.nil, by intro r hr; simp at hr⟩
  | cons pr rest ih =>
    obtain ⟨name, cs⟩ := pr
    rw [sensitivity_analysis] at hok
    rw [sensPairs]
    cases hl : lookupP base name with
    | none =>
      simp only [hl] at hok ⊢
      exact ih rows hok
    | some bv =>
    simp only [hl] at hok ⊢
    cases hrows : sensRowsFor base name bv cs with
    | error e => exact absurd (by simpa only [hrows] using hok) (by simp)
    | ok rows1 =>
    simp only [hrows] at hok
    cases hrest : sensitivity_analysis base rest with
    | error e => exact absurd (by simpa only [hrest] using hok) (by simp)
    | ok rows2 =>
    simp only [hrest] at hok
    obtain rfl : rows1 ++ rows2 = rows := by simpa using hok
    obtain ⟨ihf, ihz⟩ := ih rows2 hrest
    constructor
    · exact forall₂_append (sensRowsFor_forall base name bv hl cs rows1 hrows) ihf
    · intro r hr hzero
      rcases List.mem_append.1 hr with hr1 | hr2
      · exact sensRowsFor_zero base name bv rbase hl hbase cs rows1 hrows r hr1 hzero
      · exact ihz r hr2 hzero

/-- The base-case parameter dictionary used by the driver witnesses. -/
def baseParams : List (String × ℚ) :=
  [("capital_investment", 100), ("annual_revenue", 110),
   ("annual_operating_costs", 0), ("project_lifetime", 1),
   ("discount_rate", 1 / 10), ("tax_rate", 0), ("salvage_value", 0)]

/-- The aggregator applied to the base-case dictionary. -/
theorem callAnalyze_baseParams : callAnalyze baseParams = .ok resultBundleBase := by
  have hred : callAnalyze baseParams = analyze_profitability 100 110 0 1 (1 / 10) 0 0 := by
    rw [callAnalyze]
    norm_num [baseParams, lookupP, analyzeKeys]
    simp [qToNat?]
  rw [hred]
  exact analyze_base

/-- Looking up the revenue in the base-case dictionary. -/
theorem lookupP_baseParams_rev : lookupP baseParams "annual_revenue" = some 110 := by
  simp [baseParams, lookupP]

/-- One sensitivity row at zero percent change on the base case. -/
theorem sensOne_baseParams_zero :
    sensOne baseParams "annual_revenue" 110 0 =
      .ok ⟨"annual_revenue", 0, 0, 10, 10 / 11⟩ := by
  rw [sensOne, show (110 : ℚ) * (1 + 0 / 100) = 110 from by norm_num,
    setP_self baseParams "annual_revenue" 110 lookupP_baseParams_rev,
    callAnalyze_baseParams]
  rfl

/-- The full sensitivity table for the single pair (annual_revenue, 0%). -/
theorem sensitivity_baseParams :
    sensitivity_analysis baseParams [("annual_revenue", [0])] =
      .ok [⟨"annual_revenue", 0, 0, 10, 10 / 11⟩] := by
  rw [sensitivity_analysis]
  simp only [lookupP_baseParams_rev]
  rw [sensRowsFor]
  simp only [sensOne_baseParams_zero]
  rfl

/-- C7 witness: the row discipline at the base case with ranges
`[("annual_revenue", [0])]`. -/
theorem c7_sensitivity_rows_witness :
    List.Forall₂ (sensRowSpec baseParams)
      [⟨"annual_revenue", 0, 0, 10, 10 / 11⟩]
      (sensPairs baseParams [("annual_revenue", [0])]) ∧
    (∀ r ∈ [(⟨"annual_revenue", 0, 0, 10, 10 / 11⟩ : SRow)],
      r.change_percent = 0 → r.npv = resultBundleBase.npv) :=
  c7_sensitivity_rows baseParams [("annual_revenue", [0])]
    [⟨"annual_revenue", 0, 0, 10, 10 / 11⟩] resultBundleBase
    sensitivity_baseParams callAnalyze_baseParams

/-- A degenerate random source that always draws `-5` (so clamping to zero
is actually exercised). -/
def mcOracle : ℕ → String → ℚ := fun _ _ => -5

/-- C8 witness: with one simulated parameter drawn at `-5`, the used value
is clamped to `0` and the row count equals the success count. -/
theorem c8_monte_carlo_witness :
    0 ≤ (("capital_investment", max (0 : ℚ) (-5)) : String × ℚ).2 ∧
    (monte_carlo_analysis mcOracle
        [("capital_investment", DistSpec.normal 100 10)] 1).length =
      (List.range 1).countP
        (fun i => isOkE (callAnalyze (simParams mcOracle
          [("capital_investment", DistSpec.normal 100 10)] i))) :=
  ⟨(c8_monte_carlo mcOracle [("capital_investment", DistSpec.normal 100 10)] 1).1 0
      ("capital_investment", max (0 : ℚ) (-5))
      (by simp [simParams, sampleValue, mcOracle]),
   (c8_monte_carlo mcOracle [("capital_investment", DistSpec.normal 100 10)] 1).2.1⟩
